import Mathlib

/-!
# go-mrpeasy: the request/response transport core

A shallow embedding of `mrpeasy.go` and of `Timestamp.UnmarshalJSON` from
`model.go`.  Go strings and byte slices are Lean strings (well-formed UTF-8),
Go `int` is a Lean `Int` restricted to `intSize` bits (32 or 64 on the
platforms Go supports), a Go `error` is a value of `GoError`, and a run-time
panic is a result of its own (`Outcome.panic`).  The standard-library
functions the client calls (`strconv.Atoi`, `strings.Split`, `http.Header`,
`base64.StdEncoding`, `encoding/json`) are modelled by their documented
behaviour.
-/

namespace Mrpeasy

/-! ## Errors and results -/

/-- Go error values the client produces or passes on. -/
inductive GoError where
  /-- The sentinel `io.EOF`. -/
  | eof
  /-- A `*strconv.NumError` with `Err = ErrSyntax`, for the input `num`. -/
  | numSyntax (num : String)
  /-- A `*strconv.NumError` with `Err = ErrRange`, for the input `num`. -/
  | numRange (num : String)
  /-- An error made by `fmt.Errorf`, with its text. -/
  | errorf (msg : String)
  /-- The error of a cancelled or expired context, `ctx.Err()`. -/
  | context (reason : String)
  /-- Any other error of a library (transport, URL, JSON). -/
  | other (msg : String)
  deriving DecidableEq, Repr

/-- The text of an error, `err.Error()`. -/
def GoError.Error : GoError → String
  | .eof => "EOF"
  | .numSyntax num => "strconv.Atoi: parsing " ++ num.quote ++ ": invalid syntax"
  | .numRange num => "strconv.Atoi: parsing " ++ num.quote ++ ": value out of range"
  | .errorf msg => msg
  | .context reason => reason
  | .other msg => msg

/-- The result of a Go function returning `(*T, error)` that may also
panic: `ret v err` is a normal return of the pair, `panic msg` a run-time
panic that unwinds the caller. -/
inductive Outcome (α : Type) where
  | ret (value : Option α) (err : Option GoError)
  | panic (msg : String)
  deriving DecidableEq, Repr

/-! ## `strconv.Atoi` -/

/-- The value of a decimal digit, `ch - '0'` when it is at most 9. -/
def digitValue (c : Char) : Option Nat :=
  if 48 ≤ c.toNat ∧ c.toNat ≤ 57 then some (c.toNat - 48) else none

/-- The loop of `strconv.ParseUint` in base 10, with `n` the value so far:
a character that is not a digit is `ErrSyntax`; a digit that takes the value
above `maxVal` is `ErrRange`, returned at once, before the characters after
it are looked at.  (The test `n >= cutoff` of the source, that `n*10` does
not fit 64 bits, is the same test on exact numbers, as `maxVal < 2^64`.)
`num` is the text the error reports. -/
def parseUint (num : String) (maxVal : Nat) : List Char → Nat → Except GoError Nat
  | [], n => .ok n
  | c :: cs, n =>
    match digitValue c with
    | none => .error (.numSyntax num)
    | some d =>
      if maxVal < n * 10 + d then .error (.numRange num)
      else parseUint num maxVal cs (n * 10 + d)

/-- The sign prefix of `strconv.ParseInt`: one leading `+` or `-` is taken
off. -/
def splitSign : List Char → Bool × List Char
  | '-' :: cs => (true, cs)
  | '+' :: cs => (false, cs)
  | cs => (false, cs)

/-- `strconv.Atoi` for an `int` of `intSize` bits, which is
`strconv.ParseInt(s, 10, 0)` (the fast path of `Atoi` for short texts gives
the same results): the sign is taken off, an empty text or an empty rest is
`ErrSyntax`, the rest goes through `ParseUint` with
`maxVal = 1<<intSize - 1`, which is `2*cutoff - 1` for the
`cutoff = 1<<(intSize-1)` of `ParseInt`, and a value of `cutoff` or more
(above `cutoff` after a minus sign) is `ErrRange`. -/
def atoi (intSize : Nat) (s : String) : Except GoError Int :=
  let cutoff := 2 ^ (intSize - 1)
  match splitSign s.data with
  | (_, []) => .error (.numSyntax s)
  | (neg, ds) =>
    match parseUint s (2 * cutoff - 1) ds 0 with
    | .error err => .error err
    | .ok un =>
      if neg then
        if un ≤ cutoff then .ok (-(un : Int)) else .error (.numRange s)
      else
        if un < cutoff then .ok (un : Int) else .error (.numRange s)

/-! ## `strings.Split` with a one-byte separator -/

/-- The pieces of `cs` between the occurrences of `sep`; never empty. -/
def splitChars (sep : Char) : List Char → List (List Char)
  | [] => [[]]
  | c :: cs =>
    if c = sep then [] :: splitChars sep cs
    else
      match splitChars sep cs with
      | [] => [[c]]
      | seg :: segs => (c :: seg) :: segs

/-- `strings.Split(s, sep)` where `sep` is the one-character string the
client passes (`"/"` or `"-"`). -/
def stringsSplit (s : String) (sep : Char) : List String :=
  (splitChars sep s.data).map String.mk

/-! ## `http.Header` -/

/-- The bytes allowed in a header field name (RFC 7230 token). -/
def validHeaderFieldByte (c : Char) : Bool :=
  c.isAlphanum || "!#$%&*+-.^_|~".data.contains c || c.toNat = 39 || c.toNat = 96

/-- The case mapping of `textproto.CanonicalMIMEHeaderKey`: upper case at
the start and after a hyphen, lower case elsewhere. -/
def canonicalCase : Bool → List Char → List Char
  | _, [] => []
  | up, c :: cs => (if up then c.toUpper else c.toLower) :: canonicalCase (c = '-') cs

/-- `textproto.CanonicalMIMEHeaderKey`: a name with a byte that is not
allowed is returned unchanged. -/
def canonicalMIMEHeaderKey (s : String) : String :=
  if s.data.all validHeaderFieldByte then String.mk (canonicalCase true s.data) else s

/-- An `http.Header`: the canonical field names with their values, each
name at most once. -/
abbrev Header := List (String × List String)

/-- The values stored under an already canonical name. -/
def Header.lookup (h : Header) (key : String) : List String :=
  match h with
  | [] => []
  | (k, vs) :: rest => if k = key then vs else Header.lookup rest key

/-- `Header.Values`. -/
def Header.Values (h : Header) (key : String) : List String :=
  Header.lookup h (canonicalMIMEHeaderKey key)

/-- `Header.Get`: the first value of the field, `""` when there is none. -/
def Header.Get (h : Header) (key : String) : String :=
  match h.Values key with
  | [] => ""
  | v :: _ => v

/-- Appends `value` under the canonical name `key`. -/
def Header.addCanonical (h : Header) (key value : String) : Header :=
  match h with
  | [] => [(key, [value])]
  | (k, vs) :: rest =>
    if k = key then (k, vs ++ [value]) :: rest else (k, vs) :: Header.addCanonical rest key value

/-- Replaces the values under the canonical name `key` by `value`. -/
def Header.setCanonical (h : Header) (key value : String) : Header :=
  match h with
  | [] => [(key, [value])]
  | (k, vs) :: rest =>
    if k = key then (k, [value]) :: rest else (k, vs) :: Header.setCanonical rest key value

/-- `Header.Add`. -/
def Header.Add (h : Header) (key value : String) : Header :=
  h.addCanonical (canonicalMIMEHeaderKey key) value

/-- `Header.Set`. -/
def Header.Set (h : Header) (key value : String) : Header :=
  h.setCanonical (canonicalMIMEHeaderKey key) value

/-! ## Constants of `mrpeasy.go` -/

def headerContentType : String := "Content-Type"
def contentTypeJSON : String := "application/json"
def headerContentRange : String := "content-range"
def headerRange : String := "range"
def defaultAPIBaseURL : String := "https://api.mrpeasy.com/rest/v1/"

/-! ## Responses and the pagination cursor -/

/-- The part of an `http.Response` the client reads. -/
structure HttpResponse where
  Status : String
  StatusCode : Int
  Header : Header
  Body : String
  deriving DecidableEq, Repr

/-- The envelope `Response`: the cursor and the embedded `*http.Response`. -/
structure Response where
  totalItems : Int
  lastItem : Int
  httpResponse : HttpResponse
  deriving DecidableEq, Repr

/-- The value of an `int` computation of `intSize` bits: two's complement
wrap-around of the exact result. -/
def wrapInt (intSize : Nat) (x : Int) : Int :=
  (x + 2 ^ (intSize - 1)) % 2 ^ intSize - 2 ^ (intSize - 1)

/-- `Response.HasNext`: `r.totalItems-1 > r.lastItem`. -/
def Response.HasNext (intSize : Nat) (r : Response) : Bool :=
  decide (wrapInt intSize (r.totalItems - 1) > r.lastItem)

/-- `Response.Next`. -/
def Response.Next (r : Response) : Int :=
  r.lastItem

/-- `resolveNextItem`: both index expressions `[1]` panic when the split
has a single piece. -/
def resolveNextItem (intSize : Nat) (r : HttpResponse) : Outcome Response :=
  let contentRange := r.Header.Get headerContentRange
  let fullHeaderSplit := stringsSplit contentRange '/'
  match fullHeaderSplit with
  | s0 :: s1 :: _ =>
    match atoi intSize s1 with
    | .error err => .ret none (some err)
    | .ok totalItems =>
      let firstHeaderSplit := stringsSplit s0 '-'
      match firstHeaderSplit with
      | _ :: t1 :: _ =>
        match atoi intSize t1 with
        | .error err => .ret none (some err)
        | .ok lastItem =>
          .ret (some { totalItems := totalItems, lastItem := lastItem, httpResponse := r }) none
      | _ => .panic "index out of range [1] with length 1"
  | _ => .panic "index out of range [1] with length 1"


/-! ## Requests -/

/-- The part of an `http.Request` the client builds. -/
structure HttpRequest where
  Method : String
  URL : String
  Header : Header
  Body : Option String
  deriving DecidableEq, Repr

/-- The client: its credentials and base URL.  The `*http.Client` it holds
is the transport, which the executor receives as an argument. -/
structure Client where
  apiKey : String
  apiSecret : String
  apiBaseURL : String
  deriving DecidableEq, Repr

/-- The library calls of `NewRequest` whose result depends on data the
model does not look into: URL resolution, URL parsing and the JSON encoding
of a body of type `β`. -/
structure RequestLib (β : Type) where
  /-- The text of `c.apiBaseURL.Parse(url)`, that is `u.String()`. -/
  resolveURL : String → String → Except GoError String
  /-- The call `url.Parse` inside `http.NewRequest`. -/
  parseURL : String → Except GoError String
  /-- The text written by `json.NewEncoder(buf).Encode(body)`. -/
  jsonEncode : β → Except GoError String

/-- A `RequestOption`, a function that changes the request. -/
abbrev RequestOption := HttpRequest → HttpRequest

/-- `addRangeItemsHeader`: `r.Header.Add(headerRange, "items=" + v)`. -/
def addRangeItemsHeader (r : HttpRequest) (v : String) : HttpRequest :=
  { r with Header := r.Header.Add headerRange ("items=" ++ v) }

/-- `WithRangeFrom`, with `fmt.Sprintf("%d", from)`. -/
def WithRangeFrom (fromItem : Int) : RequestOption :=
  fun r => addRangeItemsHeader r (toString fromItem)

/-- `WithRangeFromTo`, with `fmt.Sprintf("%d-%d", from, to)`. -/
def WithRangeFromTo (fromItem toItem : Int) : RequestOption :=
  fun r => addRangeItemsHeader r (toString fromItem ++ "-" ++ toString toItem)

/-- The alphabet of `base64.StdEncoding`. -/
def base64Alphabet : List Char :=
  "ABCDEFGHIJKLMNOPQRSTUVWXYZabcdefghijklmnopqrstuvwxyz0123456789+/".data

/-- The character of a six-bit value. -/
def base64Char (n : Nat) : Char :=
  base64Alphabet.getD n 'A'

/-- The encoding of `base64.StdEncoding`: three bytes give four characters,
the last group is padded with `=`. -/
def base64Encode : List UInt8 → List Char
  | [] => []
  | [a] =>
    [base64Char (a.toNat / 4), base64Char (a.toNat % 4 * 16), '=', '=']
  | [a, b] =>
    [base64Char (a.toNat / 4), base64Char (a.toNat % 4 * 16 + b.toNat / 16),
      base64Char (b.toNat % 16 * 4), '=']
  | a :: b :: c :: rest =>
    base64Char (a.toNat / 4) :: base64Char (a.toNat % 4 * 16 + b.toNat / 16) ::
      base64Char (b.toNat % 16 * 4 + c.toNat / 64) :: base64Char (c.toNat % 64) ::
      base64Encode rest

/-- `base64.StdEncoding.EncodeToString([]byte(s))`. -/
def base64StdEncodeToString (s : String) : String :=
  String.mk (base64Encode (s.data.flatMap String.utf8EncodeChar))

/-- `http.NewRequest`: an empty method is `GET`, a method that is not a
token is refused, the URL is parsed, and the request starts with an empty
header. -/
def httpNewRequest {β : Type} (lib : RequestLib β) (method url : String)
    (body : Option String) : Except GoError HttpRequest :=
  let method := if method = "" then "GET" else method
  if method.data.all validHeaderFieldByte then
    match lib.parseURL url with
    | .error err => .error err
    | .ok u => .ok { Method := method, URL := u, Header := [], Body := body }
  else .error (.errorf ("net/http: invalid method " ++ method.quote))

/-- `Client.NewRequest`. -/
def Client.NewRequest {β : Type} (lib : RequestLib β) (c : Client) (method url : String)
    (body : Option β) (opts : List RequestOption) : Except GoError HttpRequest :=
  match lib.resolveURL c.apiBaseURL url with
  | .error err => .error err
  | .ok u =>
    let encoded : Except GoError (Option String) :=
      match body with
      | none => .ok none
      | some b =>
        match lib.jsonEncode b with
        | .error err => .error err
        | .ok text => .ok (some text)
    match encoded with
    | .error err => .error err
    | .ok buf =>
      match httpNewRequest lib method u buf with
      | .error err => .error err
      | .ok req =>
        let authHeader := c.apiKey ++ ":" ++ c.apiSecret
        let b64AuthHeader := base64StdEncodeToString authHeader
        let req := { req with Header := req.Header.Add "Authorization" ("Basic " ++ b64AuthHeader) }
        let req :=
          if body.isSome then
            { req with Header := req.Header.Set headerContentType contentTypeJSON }
          else req
        .ok (opts.foldl (fun r o => o r) req)

/-! ## The transport executor -/

/-- `isError`: `nil` for a status code in `[200, 299]`. -/
def isError (r : HttpResponse) : Option GoError :=
  if 200 ≤ r.StatusCode ∧ r.StatusCode ≤ 299 then none
  else some (.errorf ("response: " ++ r.Status))

/-- What `c.client.Do(req)` gives: a transport error, together with the
error of the context when the context is done at that moment, or a
response. -/
inductive RoundTrip where
  | fail (err : GoError) (ctxErr : Option GoError)
  | response (resp : HttpResponse)
  deriving DecidableEq, Repr

/-- The argument `v` of `Do`: `nil`, an `io.Writer` in state `w`, or a
pointer to a value `x` that JSON is decoded into. -/
inductive Target (W τ : Type) where
  | null
  | writer (w : W)
  | value (x : τ)
  deriving DecidableEq, Repr

/-- The library calls of `Do` on the response body: `io.Copy` into a writer
of type `W` and the JSON decoder for a target of type `τ`; each gives the
new state of its destination and an error or `nil`. -/
structure BodyLib (W τ : Type) where
  /-- The call `io.Copy(w, resp.Body)`. -/
  copy : W → String → W × Option GoError
  /-- The call `Decode(v)` on a body that is not empty. -/
  parse : String → τ → τ × Option GoError

/-- `json.NewDecoder(resp.Body).Decode(v)`: on an empty body the decoder
returns `io.EOF` and writes nothing. -/
def jsonDecode {W τ : Type} (lib : BodyLib W τ) (body : String) (x : τ) : τ × Option GoError :=
  if body = "" then (x, some .eof) else lib.parse body x

/-- `Client.Do`: the result pair (or panic) and the decode target after the
call.  `client` stands for `c.client.Do`. -/
def Client.Do {W τ : Type} (intSize : Nat) (lib : BodyLib W τ)
    (client : HttpRequest → RoundTrip) (req : HttpRequest) (v : Target W τ) :
    Outcome Response × Target W τ :=
  match client req with
  | .fail err ctxErr =>
    match ctxErr with
    | some ce => (.ret none (some ce), v)
    | none => (.ret none (some err), v)
  | .response resp =>
    match isError resp with
    | some err =>
      (.ret (some { totalItems := 0, lastItem := 0, httpResponse := resp }) (some err), v)
    | none =>
      match resolveNextItem intSize resp with
      | .panic msg => (.panic msg, v)
      | .ret _ (some err) => (.ret none (some err), v)
      | .ret r none =>
        match v with
        | .null => (.ret r none, v)
        | .writer w =>
          match lib.copy w resp.Body with
          | (w1, some err) =>
            (.ret none (some (.errorf ("could not copy respo.Body to writer: " ++ err.Error))),
              .writer w1)
          | (w1, none) => (.ret r none, .writer w1)
        | .value x =>
          match jsonDecode lib resp.Body x with
          | (x1, decErr) =>
            let decErr := if decErr = some .eof then none else decErr
            (.ret r decErr, .value x1)

/-! ## The paged listing endpoints -/

/-- A run of a listing call against a scripted transport. -/
structure ListRun (α : Type) where
  /-- What the call gives; `none` when the script ends before the loop. -/
  outcome : Option (Outcome (List α))
  /-- The requests sent, in order. -/
  requests : List HttpRequest
  /-- The part of the script that was not consumed. -/
  rest : List RoundTrip

/-- The loop shared by `ListCustomers`, `ListCustomerOrders`, `ListShipments`
and `ListStockItems`, which differ in the path and the element type only.
`script` holds what the transport answers to the successive requests,
`opts` and `result` are the loop variables, `sent` the requests so far. -/
def listLoop {β W α : Type} (intSize : Nat) (rlib : RequestLib β) (blib : BodyLib W (List α))
    (c : Client) (path : String) :
    List RoundTrip → List RequestOption → List α → List HttpRequest → ListRun α
  | script, opts, result, sent =>
    match c.NewRequest rlib "GET" path none opts with
    | .error err => { outcome := some (.ret none (some err)), requests := sent, rest := script }
    | .ok req =>
      match script with
      | [] => { outcome := none, requests := sent ++ [req], rest := [] }
      | rt :: script1 =>
        match Client.Do intSize blib (fun _ => rt) req (.value []) with
        | (.panic msg, _) =>
          { outcome := some (.panic msg), requests := sent ++ [req], rest := script1 }
        | (.ret _ (some err), _) =>
          { outcome := some (.ret none (some err)), requests := sent ++ [req], rest := script1 }
        | (.ret none none, _) =>
          { outcome := some (.panic "invalid memory address or nil pointer dereference"),
            requests := sent ++ [req], rest := script1 }
        | (.ret (some resp) none, tgt) =>
          let tmp := match tgt with
            | .value x => x
            | _ => []
          let result := result ++ tmp
          if !resp.HasNext intSize then
            { outcome := some (.ret (some result) none), requests := sent ++ [req], rest := script1 }
          else
            listLoop intSize rlib blib c path script1 [WithRangeFrom resp.Next] result
              (sent ++ [req])

/-- `Client.ListCustomers`. -/
def Client.ListCustomers {β W α : Type} (intSize : Nat) (rlib : RequestLib β)
    (blib : BodyLib W (List α)) (c : Client) (script : List RoundTrip) : ListRun α :=
  listLoop intSize rlib blib c "customers" script [] [] []

/-- `Client.ListCustomerOrders`. -/
def Client.ListCustomerOrders {β W α : Type} (intSize : Nat) (rlib : RequestLib β)
    (blib : BodyLib W (List α)) (c : Client) (script : List RoundTrip) : ListRun α :=
  listLoop intSize rlib blib c "customer-orders" script [] [] []

/-- `Client.ListShipments`. -/
def Client.ListShipments {β W α : Type} (intSize : Nat) (rlib : RequestLib β)
    (blib : BodyLib W (List α)) (c : Client) (script : List RoundTrip) : ListRun α :=
  listLoop intSize rlib blib c "shipments" script [] [] []

/-- `Client.ListStockItems`. -/
def Client.ListStockItems {β W α : Type} (intSize : Nat) (rlib : RequestLib β)
    (blib : BodyLib W (List α)) (c : Client) (script : List RoundTrip) : ListRun α :=
  listLoop intSize rlib blib c "items" script [] [] []

/-- The four listing endpoints of the client. -/
inductive Endpoint where
  | customers
  | customerOrders
  | shipments
  | stockItems
  deriving DecidableEq, Repr

/-- The path an endpoint requests. -/
def Endpoint.path : Endpoint → String
  | .customers => "customers"
  | .customerOrders => "customer-orders"
  | .shipments => "shipments"
  | .stockItems => "items"

/-- The listing call of an endpoint. -/
def Endpoint.list {β W α : Type} (e : Endpoint) (intSize : Nat) (rlib : RequestLib β)
    (blib : BodyLib W (List α)) (c : Client) (script : List RoundTrip) : ListRun α :=
  match e with
  | .customers => c.ListCustomers intSize rlib blib script
  | .customerOrders => c.ListCustomerOrders intSize rlib blib script
  | .shipments => c.ListShipments intSize rlib blib script
  | .stockItems => c.ListStockItems intSize rlib blib script

/-! ## `Timestamp.UnmarshalJSON` -/

/-- JSON white space. -/
def isJsonSpace (c : Char) : Bool :=
  c = ' ' || c.toNat = 9 || c.toNat = 10 || c.toNat = 13

/-- The text without the white space around it. -/
def jsonTrim (cs : List Char) : List Char :=
  ((cs.dropWhile isJsonSpace).reverse.dropWhile isJsonSpace).reverse

/-- The value of a hexadecimal digit. -/
def hexValue (c : Char) : Option Nat :=
  if 48 ≤ c.toNat ∧ c.toNat ≤ 57 then some (c.toNat - 48)
  else if 97 ≤ c.toNat ∧ c.toNat ≤ 102 then some (c.toNat - 87)
  else if 65 ≤ c.toNat ∧ c.toNat ≤ 70 then some (c.toNat - 55)
  else none

/-- The character of a one-letter escape of a JSON string. -/
def escapeChar (c : Char) : Option Char :=
  if c = '"' then some '"'
  else if c = '\\' then some '\\'
  else if c = '/' then some '/'
  else if c = 'b' then some (Char.ofNat 8)
  else if c = 'f' then some (Char.ofNat 12)
  else if c = 'n' then some (Char.ofNat 10)
  else if c = 'r' then some (Char.ofNat 13)
  else if c = 't' then some (Char.ofNat 9)
  else none

/-- A piece of a JSON string literal: a character, or the code unit of a
`\uXXXX` escape. -/
inductive StringPiece where
  | char (c : Char)
  | unit (u : Nat)
  deriving DecidableEq, Repr

/-- The pieces of a JSON string literal after its opening quote; the
closing quote has to be the last character.  Control characters and
unknown or cut-off escapes are syntax errors (`none`). -/
def scanString : List Char → Option (List StringPiece)
  | [] => none
  | '"' :: rest => if rest = [] then some [] else none
  | '\\' :: 'u' :: a :: b :: c :: d :: rest =>
    match hexValue a, hexValue b, hexValue c, hexValue d with
    | some x, some y, some z, some w =>
      (scanString rest).map (StringPiece.unit (((x * 16 + y) * 16 + z) * 16 + w) :: ·)
    | _, _, _, _ => none
  | '\\' :: e :: rest =>
    match escapeChar e with
    | some c => (scanString rest).map (StringPiece.char c :: ·)
    | none => none
  | c :: rest =>
    if c.toNat < 32 ∨ c = '\\' then none else (scanString rest).map (StringPiece.char c :: ·)

/-- The replacement character U+FFFD. -/
def replacementChar : Char := Char.ofNat 65533

/-- The characters of the pieces, as `encoding/json` unquotes them: a high
surrogate escape directly followed by a low surrogate escape is one
character, any other surrogate escape is U+FFFD.  `pending` is a high
surrogate waiting for its partner. -/
def unquotePieces : Option Nat → List StringPiece → List Char
  | none, [] => []
  | some _, [] => [replacementChar]
  | none, .char c :: ps => c :: unquotePieces none ps
  | some _, .char c :: ps => replacementChar :: c :: unquotePieces none ps
  | none, .unit u :: ps =>
    if 55296 ≤ u ∧ u < 56320 then unquotePieces (some u) ps
    else if 56320 ≤ u ∧ u < 57344 then replacementChar :: unquotePieces none ps
    else Char.ofNat u :: unquotePieces none ps
  | some hi, .unit u :: ps =>
    if 56320 ≤ u ∧ u < 57344 then
      Char.ofNat (65536 + (hi - 55296) * 1024 + (u - 56320)) :: unquotePieces none ps
    else if 55296 ≤ u ∧ u < 56320 then replacementChar :: unquotePieces (some u) ps
    else replacementChar :: Char.ofNat u :: unquotePieces none ps

/-- The value of a JSON text that is a string literal, `none` when the text
is not one. -/
def jsonStringValue (bytes : String) : Option String :=
  match jsonTrim bytes.data with
  | '"' :: rest => (scanString rest).map fun ps => String.mk (unquotePieces none ps)
  | _ => none

/-- `json.Unmarshal(bytes, &raw)` for `raw` of type `string`: a string
literal is stored, `null` leaves `raw` as it is, and any other text is an
error (a type error when it is another JSON value, else a syntax error). -/
def jsonUnmarshalString (bytes : String) (raw : String) : Except GoError String :=
  if jsonTrim bytes.data = "null".data then .ok raw
  else
    match jsonStringValue bytes with
    | some s => .ok s
    | none => .error (.other "json: cannot unmarshal into Go value of type string")

/-- A `time.Time` as the client sets it: seconds and nanoseconds since the
Unix epoch. -/
structure Time where
  sec : Int
  nsec : Int
  deriving DecidableEq, Repr

/-- `time.Unix(sec, 0)`. -/
def timeUnix (sec : Int) : Time :=
  { sec := sec, nsec := 0 }

/-- The type `Timestamp`, which embeds a `time.Time`. -/
structure Timestamp where
  Time : Time
  deriving DecidableEq, Repr

/-- `Timestamp.UnmarshalJSON`: the timestamp after the call and the error
returned. -/
def Timestamp.UnmarshalJSON (intSize : Nat) (p : Timestamp) (bytes : String) :
    Timestamp × Option GoError :=
  match jsonUnmarshalString bytes "" with
  | .error err => (p, some err)
  | .ok raw =>
    match atoi intSize raw with
    | .error err => (p, some err)
    | .ok i => ({ p with Time := timeUnix i }, none)

/-! ## Vocabulary of the statements -/

/-- A `200 OK` response with the given content-range header and body. -/
def pageResponse (contentRange body : String) : HttpResponse :=
  { Status := "200 OK", StatusCode := 200, Header := [("Content-Range", [contentRange])],
    Body := body }

/-- The value of a run of decimal digits after the value `acc`, without a
bound; `none` at a character that is not a digit. -/
def parseDigits : List Char → Nat → Option Nat
  | [], acc => some acc
  | c :: cs, acc =>
    match digitValue c with
    | none => none
    | some d => parseDigits cs (acc * 10 + d)

/-- The list `ds` is a decimal numeral of `n`: not empty, digits only, and
of value `n`. -/
def IsNumeral (ds : List Char) (n : Nat) : Prop :=
  ds ≠ [] ∧ (∀ ch ∈ ds, 48 ≤ ch.toNat ∧ ch.toNat ≤ 57) ∧
    ∀ acc rest, parseDigits (ds ++ rest) acc = parseDigits rest (acc * 10 ^ ds.length + n)

/-- A decimal digit, `0` to `9`. -/
def isDecimalDigit (c : Char) : Bool :=
  decide (48 ≤ c.toNat ∧ c.toNat ≤ 57)

/-- The text of a decimal integer: an optional sign `+` or `-` and then one
or more decimal digits. -/
def isDecimalInteger (s : String) : Bool :=
  match s.data with
  | [] => false
  | c :: cs =>
    if c = '-' ∨ c = '+' then !cs.isEmpty && cs.all isDecimalDigit
    else (c :: cs).all isDecimalDigit

/-- A client with the credentials `key` and `secret`. -/
def exampleClient : Client :=
  { apiKey := "key", apiSecret := "secret", apiBaseURL := defaultAPIBaseURL }

/-- Library calls that resolve a path by appending it to the base URL,
accept every URL and encode every body as `null`. -/
def exampleRequestLib : RequestLib Unit :=
  { resolveURL := fun base ref => .ok (base ++ ref),
    parseURL := fun u => .ok u,
    jsonEncode := fun _ => .ok "null\n" }

/-- Library calls for a list of characters as decode target: the decoder
stores the characters of the body, the writer takes every body. -/
def exampleBodyLib : BodyLib Unit (List Char) :=
  { copy := fun w _ => (w, none),
    parse := fun body _ => (body.data, none) }

/-- The first request of `ListCustomers` for `exampleClient`. -/
def exampleRequest : HttpRequest :=
  { Method := "GET", URL := "https://api.mrpeasy.com/rest/v1/customers",
    Header := [("Authorization", ["Basic a2V5OnNlY3JldA=="])], Body := none }

/-- A `404 Not Found` response without a content-range header. -/
def notFoundResponse : HttpResponse :=
  { Status := "404 Not Found", StatusCode := 404, Header := [], Body := "not found" }

/-- Library calls whose JSON decoder rejects every body that is not empty
with a syntax error and writes nothing. -/
def failingBodyLib : BodyLib Unit (List Char) :=
  { copy := fun w _ => (w, none),
    parse := fun _ x => (x, some (.other "invalid character")) }

/-- A `500 Internal Server Error` response. -/
def serverErrorResponse : HttpResponse :=
  { Status := "500 Internal Server Error", StatusCode := 500, Header := [], Body := "" }

/-- Library calls that refuse every URL. -/
def failingRequestLib : RequestLib Unit :=
  { resolveURL := fun _ _ => .error (.other "parse: invalid URL"),
    parseURL := fun u => .ok u,
    jsonEncode := fun _ => .ok "null\n" }

/-- A character that stands for itself in a JSON string literal: not a
control character, not the quote and not the backslash. -/
def IsPlainChar (c : Char) : Prop :=
  32 ≤ c.toNat ∧ c ≠ '"' ∧ c ≠ '\\'

/-- The header of a request right after `NewRequest` has set the
Authorization field and, when there is a body, the Content-Type field. -/
def standardHeader (c : Client) (hasBody : Bool) : Header :=
  let auth : Header := Header.Add [] "Authorization"
    ("Basic " ++ base64StdEncodeToString (c.apiKey ++ ":" ++ c.apiSecret))
  if hasBody then auth.Set headerContentType contentTypeJSON else auth

/-- One of the two range options of the client. -/
def IsRangeOption (o : RequestOption) : Prop :=
  (∃ fromItem, o = WithRangeFrom fromItem) ∨
    ∃ fromItem toItem, o = WithRangeFromTo fromItem toItem

/-- A page of a listing: the response of the server, the cursor read from
its header and the items decoded from its body. -/
structure Page (α : Type) where
  resp : HttpResponse
  cursor : Response
  items : List α

/-- The page is a success: a status in `[200, 299]`, a range header that
resolves to the cursor, and a body that decodes to the items (an empty body
decodes to nothing). -/
def Page.Good {W α : Type} (intSize : Nat) (blib : BodyLib W (List α)) (p : Page α) : Prop :=
  isError p.resp = none ∧
    resolveNextItem intSize p.resp = .ret (some p.cursor) none ∧
    (jsonDecode blib p.resp.Body [] = (p.items, none) ∨
      jsonDecode blib p.resp.Body [] = (p.items, some .eof))

/-- A page for `exampleBodyLib`: a `200 OK` response with the given range
header and body, the cursor of that header, and the characters of the body
as items. -/
def examplePage (contentRange body : String) (totalItems lastItem : Int) : Page Char :=
  { resp := pageResponse contentRange body,
    cursor := ⟨totalItems, lastItem, pageResponse contentRange body⟩,
    items := body.data }

/-- The run of `ListCustomers` against a transport that answers with the
pages `0-99/250`, `99-199/250` and `199-249/250`. -/
def exampleCustomersRun : ListRun Char :=
  Client.ListCustomers 64 exampleRequestLib exampleBodyLib exampleClient
    [RoundTrip.response (pageResponse "0-99/250" "ab"),
      RoundTrip.response (pageResponse "99-199/250" "cd"),
      RoundTrip.response (pageResponse "199-249/250" "e")]

/-- The run of `ListShipments` against a transport that answers with the
pages `0-0/2` and `0-1/2` and holds a `404` after them. -/
def exampleShipmentsRun : ListRun Char :=
  Client.ListShipments 64 exampleRequestLib exampleBodyLib exampleClient
    [RoundTrip.response (pageResponse "0-0/2" "x"),
      RoundTrip.response (pageResponse "0-1/2" "y"),
      RoundTrip.response notFoundResponse]

/-- The request a listing loop sends with the options `opts`, given the
request `req0` it sends with none. -/
def applyOptions (opts : List RequestOption) (req0 : HttpRequest) : HttpRequest :=
  opts.foldl (fun r o => o r) req0

/-- The requests a listing loop sends for the pages, starting with the
options `opts`. -/
def pageRequests {α : Type} (req0 : HttpRequest) : List RequestOption → List (Page α) →
    List HttpRequest
  | _, [] => []
  | opts, p :: ps =>
    applyOptions opts req0 :: pageRequests req0 [WithRangeFrom p.cursor.Next] ps

/-- The options of a listing loop after the pages. -/
def optionsAfter {α : Type} : List RequestOption → List (Page α) → List RequestOption
  | opts, [] => opts
  | _, p :: ps => optionsAfter [WithRangeFrom p.cursor.Next] ps

/-! ## Decimal text -/

theorem digitChar_toNat (m : Nat) (hm : m < 10) : (Nat.digitChar m).toNat = 48 + m := by
  interval_cases m <;> rfl

theorem parseDigits_digit (ch : Char) (cs : List Char) (acc : Nat)
    (h : 48 ≤ ch.toNat ∧ ch.toNat ≤ 57) :
    parseDigits (ch :: cs) acc = parseDigits cs (acc * 10 + (ch.toNat - 48)) := by
  simp [parseDigits, digitValue, h]

theorem toDigitsCore_numeral (fuel : Nat) : ∀ (n : Nat) (tail : List Char), n < fuel →
    ∃ ds, Nat.toDigitsCore 10 fuel n tail = ds ++ tail ∧ IsNumeral ds n := by
  induction fuel with
  | zero => intro n tail h; omega
  | succ fuel ih =>
    intro n tail hn
    have hd : (Nat.digitChar (n % 10)).toNat = 48 + n % 10 :=
      digitChar_toNat _ (Nat.mod_lt _ (by omega))
    by_cases h0 : n / 10 = 0
    · refine ⟨[Nat.digitChar (n % 10)], by simp [Nat.toDigitsCore, h0], by simp, ?_, ?_⟩
      · intro ch hch
        simp only [List.mem_singleton] at hch
        subst hch
        omega
      · intro acc rest
        have hlt : n < 10 := by omega
        rw [List.singleton_append, parseDigits_digit _ _ _ (by omega), hd]
        congr 1
        simp
        omega
    · obtain ⟨ds, hds, hne, hdig, hval⟩ := ih (n / 10) (Nat.digitChar (n % 10) :: tail) (by omega)
      refine ⟨ds ++ [Nat.digitChar (n % 10)], ?_, by simp, ?_, ?_⟩
      · simp [Nat.toDigitsCore, h0, hds]
      · intro ch hch
        rw [List.mem_append, List.mem_singleton] at hch
        rcases hch with hch | hch
        · exact hdig ch hch
        · subst hch; omega
      · intro acc rest
        rw [List.append_assoc, List.singleton_append, hval,
          parseDigits_digit _ _ _ (by omega), hd]
        congr 1
        rw [List.length_append, List.length_singleton, pow_succ]
        have := Nat.div_add_mod n 10
        simp only [Nat.add_sub_cancel_left]
        nlinarith [this]

theorem toDigits_numeral (n : Nat) : IsNumeral (Nat.toDigits 10 n) n := by
  obtain ⟨ds, hds, hnum⟩ := toDigitsCore_numeral (n + 1) n [] (by omega)
  rw [Nat.toDigits, hds, List.append_nil]
  exact hnum

theorem toString_nat_data (n : Nat) : (toString n).data = Nat.toDigits 10 n := rfl

theorem splitSign_digit (ch : Char) (cs : List Char) (h : 48 ≤ ch.toNat ∧ ch.toNat ≤ 57) :
    splitSign (ch :: cs) = (false, ch :: cs) := by
  unfold splitSign
  split
  · rename_i heq
    simp only [List.cons.injEq] at heq
    rw [heq.1] at h
    exact absurd h (by decide)
  · rename_i heq
    simp only [List.cons.injEq] at heq
    rw [heq.1] at h
    exact absurd h (by decide)
  · rfl

theorem IsNumeral.parse {ds : List Char} {n : Nat} (h : IsNumeral ds n) :
    parseDigits ds 0 = some n := by
  have := h.2.2 0 []
  simpa [parseDigits] using this

theorem parseDigits_le : ∀ (ds : List Char) (acc n : Nat),
    parseDigits ds acc = some n → acc ≤ n
  | [], acc, n, h => by
    simp only [parseDigits, Option.some.injEq] at h
    omega
  | ch :: cs, acc, n, h => by
    unfold parseDigits at h
    cases hd : digitValue ch with
    | none => rw [hd] at h; exact absurd h (by simp)
    | some d =>
      rw [hd] at h
      have := parseDigits_le cs _ n h
      omega

/-- A run of digits whose value is at most `maxVal` goes through the loop
of `ParseUint` without an error. -/
theorem parseUint_of_parseDigits (num : String) (maxVal : Nat) : ∀ (ds : List Char)
    (acc n : Nat), parseDigits ds acc = some n → n ≤ maxVal →
    parseUint num maxVal ds acc = .ok n
  | [], acc, n, h, _ => by
    simp only [parseDigits, Option.some.injEq] at h
    simp [parseUint, h]
  | ch :: cs, acc, n, h, hn => by
    unfold parseDigits at h
    unfold parseUint
    cases hd : digitValue ch with
    | none => rw [hd] at h; exact absurd h (by simp)
    | some d =>
      rw [hd] at h
      have hle := parseDigits_le cs _ n h
      have hnot : ¬ maxVal < acc * 10 + d := by omega
      simp only [if_neg hnot]
      exact parseUint_of_parseDigits num maxVal cs _ n h hn

/-- A run with a character that is not a digit is an error of the loop of
`ParseUint`. -/
theorem parseUint_of_parseDigits_none (num : String) (maxVal : Nat) : ∀ (ds : List Char)
    (acc : Nat), parseDigits ds acc = none → ∃ err, parseUint num maxVal ds acc = .error err
  | [], acc, h => by simp [parseDigits] at h
  | ch :: cs, acc, h => by
    unfold parseDigits at h
    unfold parseUint
    cases hd : digitValue ch with
    | none => exact ⟨_, rfl⟩
    | some d =>
      rw [hd] at h
      by_cases hov : maxVal < acc * 10 + d
      · simp only [if_pos hov]
        exact ⟨_, rfl⟩
      · simp only [if_neg hov]
        exact parseUint_of_parseDigits_none num maxVal cs _ h

theorem atoi_numeral (intSize : Nat) (ds : List Char) (n : Nat) (h : IsNumeral ds n)
    (hn : n < 2 ^ (intSize - 1)) : atoi intSize (String.mk ds) = .ok (n : Int) := by
  obtain ⟨ch, cs, rfl⟩ := List.exists_cons_of_ne_nil h.1
  have hs := splitSign_digit ch cs (h.2.1 ch (List.mem_cons_self _ _))
  have hp := parseUint_of_parseDigits (String.mk (ch :: cs)) (2 * 2 ^ (intSize - 1) - 1)
    _ 0 n h.parse (by omega)
  simp only [atoi, hs, hp, hn, if_true]
  rfl

theorem atoi_neg_numeral (intSize : Nat) (ds : List Char) (n : Nat) (h : IsNumeral ds n)
    (hn : n ≤ 2 ^ (intSize - 1)) :
    atoi intSize (String.mk ('-' :: ds)) = .ok (-(n : Int)) := by
  obtain ⟨ch, cs, rfl⟩ := List.exists_cons_of_ne_nil h.1
  have hs : splitSign ('-' :: ch :: cs) = (true, ch :: cs) := rfl
  have hpos : 0 < 2 ^ (intSize - 1) := Nat.pow_pos (by decide)
  have hp := parseUint_of_parseDigits (String.mk ('-' :: ch :: cs))
    (2 * 2 ^ (intSize - 1) - 1) _ 0 n h.parse (by omega)
  simp only [atoi, hs, hp, hn, if_true]

/-! ## Splitting -/

theorem splitChars_of_not_mem (sep : Char) : ∀ (xs : List Char), sep ∉ xs →
    splitChars sep xs = [xs]
  | [], _ => rfl
  | x :: xs, h => by
    have hx : x ≠ sep := fun e => h (e ▸ List.mem_cons_self _ _)
    have hxs : sep ∉ xs := fun e => h (List.mem_cons_of_mem _ e)
    simp [splitChars, hx, splitChars_of_not_mem sep xs hxs]

theorem splitChars_append (sep : Char) (ys : List Char) : ∀ (xs : List Char), sep ∉ xs →
    splitChars sep (xs ++ sep :: ys) = xs :: splitChars sep ys
  | [], _ => by simp [splitChars]
  | x :: xs, h => by
    have hx : x ≠ sep := fun e => h (e ▸ List.mem_cons_self _ _)
    have hxs : sep ∉ xs := fun e => h (List.mem_cons_of_mem _ e)
    simp [splitChars, hx, splitChars_append sep ys xs hxs]

theorem IsNumeral.not_mem {ds : List Char} {n : Nat} (h : IsNumeral ds n) (sep : Char)
    (hsep : sep.toNat < 48) : sep ∉ ds := by
  intro hmem
  have := h.2.1 sep hmem
  omega

theorem stringsSplit_shape (first last total : List Char)
    (hf : '-' ∉ first ∧ '/' ∉ first) (hl : '-' ∉ last ∧ '/' ∉ last) (ht : '/' ∉ total)
    (s : String) (hs : s.data = first ++ '-' :: (last ++ '/' :: total)) :
    stringsSplit s '/' = [String.mk (first ++ '-' :: last), String.mk total] ∧
      stringsSplit (String.mk (first ++ '-' :: last)) '-' = [String.mk first, String.mk last] := by
  constructor
  · have hno : '/' ∉ first ++ '-' :: last := by
      simp only [List.mem_append, List.mem_cons, not_or]
      exact ⟨hf.2, by decide, hl.2⟩
    have hre : s.data = (first ++ '-' :: last) ++ '/' :: total := by
      rw [hs]; simp
    rw [stringsSplit, hre, splitChars_append _ _ _ hno, splitChars_of_not_mem _ _ ht]
    rfl
  · rw [stringsSplit]
    show List.map String.mk (splitChars '-' (first ++ '-' :: last)) = _
    rw [splitChars_append _ _ _ hf.1, splitChars_of_not_mem _ _ hl.1]
    rfl

/-- On a header `first-last/total` whose segments hold no separator of
their own, the resolver parses `total`, then `last`, and nothing else. -/
theorem resolveNextItem_shape (intSize : Nat) (r : HttpResponse) (first last total : List Char)
    (hf : '-' ∉ first ∧ '/' ∉ first) (hl : '-' ∉ last ∧ '/' ∉ last) (ht : '/' ∉ total)
    (hdr : (r.Header.Get headerContentRange).data = first ++ '-' :: (last ++ '/' :: total)) :
    resolveNextItem intSize r =
      match atoi intSize (String.mk total) with
      | .error err => .ret none (some err)
      | .ok totalItems =>
        match atoi intSize (String.mk last) with
        | .error err => .ret none (some err)
        | .ok lastItem =>
          .ret (some { totalItems := totalItems, lastItem := lastItem, httpResponse := r }) none := by
  obtain ⟨h1, h2⟩ := stringsSplit_shape first last total hf hl ht _ hdr
  simp only [resolveNextItem, h1, h2]

theorem wrapInt_of_range (intSize : Nat) (hw : 0 < intSize) (x : Int)
    (hlo : -(2 : Int) ^ (intSize - 1) ≤ x) (hhi : x < 2 ^ (intSize - 1)) :
    wrapInt intSize x = x := by
  have hp : (2 : Int) ^ intSize = 2 * 2 ^ (intSize - 1) := by
    obtain ⟨k, rfl⟩ : ∃ k, intSize = k + 1 := ⟨intSize - 1, by omega⟩
    simp [pow_succ, mul_comm]
  unfold wrapInt
  rw [Int.emod_eq_of_lt (by omega) (by omega)]
  omega

/-- C1. For a content-range header `a-b/c` with natural numbers
`a ≤ b < c` in the range of `int`, `resolveNextItem` returns without error
the envelope with `lastItem = b` and `totalItems = c`, and `HasNext` on it
is `c - 1 > b`. -/
theorem resolveNextItem_valid_range (intSize : Nat) (hw : 0 < intSize) (r : HttpResponse)
    (a b c : Nat) (_hab : a ≤ b) (hbc : b < c) (hc : c < 2 ^ (intSize - 1))
    (hdr : r.Header.Get headerContentRange =
      toString a ++ "-" ++ toString b ++ "/" ++ toString c) :
    resolveNextItem intSize r =
        .ret (some { totalItems := c, lastItem := b, httpResponse := r }) none ∧
      Response.HasNext intSize { totalItems := c, lastItem := b, httpResponse := r } =
        decide ((c : Int) - 1 > b) := by
  have ha := toDigits_numeral a
  have hb := toDigits_numeral b
  have hcn := toDigits_numeral c
  have hdata : (r.Header.Get headerContentRange).data =
      Nat.toDigits 10 a ++ '-' :: (Nat.toDigits 10 b ++ '/' :: Nat.toDigits 10 c) := by
    rw [hdr]
    simp only [String.data_append, toString_nat_data]
    simp
  constructor
  · rw [resolveNextItem_shape intSize r _ _ _
      ⟨ha.not_mem _ (by decide), ha.not_mem _ (by decide)⟩
      ⟨hb.not_mem _ (by decide), hb.not_mem _ (by decide)⟩ (hcn.not_mem _ (by decide)) hdata]
    rw [atoi_numeral intSize _ c hcn hc, atoi_numeral intSize _ b hb (by omega)]
  · have hc1 : ((c : Int)) < 2 ^ (intSize - 1) := by exact_mod_cast hc
    have hpos : (0 : Int) < 2 ^ (intSize - 1) := by positivity
    simp only [Response.HasNext]
    rw [wrapInt_of_range intSize hw _ (by omega) (by omega)]

/-- C1 at the header `0-99/250` on a 64-bit platform. -/
theorem resolveNextItem_valid_range_witness :
    resolveNextItem 64 (pageResponse "0-99/250" "") =
        .ret (some ⟨((250 : Nat) : Int), ((99 : Nat) : Int), pageResponse "0-99/250" ""⟩) none ∧
      Response.HasNext 64 ⟨((250 : Nat) : Int), ((99 : Nat) : Int), pageResponse "0-99/250" ""⟩ =
        decide (((250 : Nat) : Int) - 1 > ((99 : Nat) : Int)) :=
  resolveNextItem_valid_range 64 (by decide) (pageResponse "0-99/250" "") 0 99 250
    (by decide) (by decide) (by decide) (by decide)

theorem parseDigits_of_not_digits : ∀ (ds : List Char) (acc : Nat),
    ds.all isDecimalDigit = false → parseDigits ds acc = none
  | [], _, h => by simp at h
  | ch :: cs, acc, h => by
    by_cases hd : 48 ≤ ch.toNat ∧ ch.toNat ≤ 57
    · have hcs : cs.all isDecimalDigit = false := by
        simpa [List.all_cons, isDecimalDigit, hd] using h
      rw [parseDigits_digit _ _ _ hd]
      exact parseDigits_of_not_digits cs _ hcs
    · simp [parseDigits, digitValue, hd]

theorem splitSign_other (ch : Char) (cs : List Char) (h1 : ch ≠ '-') (h2 : ch ≠ '+') :
    splitSign (ch :: cs) = (false, ch :: cs) := by
  unfold splitSign
  split
  · rename_i heq
    simp only [List.cons.injEq] at heq
    exact absurd heq.1 h1
  · rename_i heq
    simp only [List.cons.injEq] at heq
    exact absurd heq.1 h2
  · rfl

theorem atoi_of_not_decimal (intSize : Nat) (s : String) (h : isDecimalInteger s = false) :
    ∃ err, atoi intSize s = .error err := by
  unfold isDecimalInteger at h
  have hrun : ∀ (neg : Bool) (d : Char) (ds : List Char),
      (d :: ds).all isDecimalDigit = false → splitSign s.data = (neg, d :: ds) →
      ∃ err, atoi intSize s = .error err := by
    intro neg d ds hall hsp
    obtain ⟨err, herr⟩ := parseUint_of_parseDigits_none s (2 * 2 ^ (intSize - 1) - 1)
      (d :: ds) 0 (parseDigits_of_not_digits _ 0 hall)
    exact ⟨err, by simp only [atoi, hsp, herr]⟩
  cases hs : s.data with
  | nil => exact ⟨.numSyntax s, by simp only [atoi, hs]; rfl⟩
  | cons ch cs =>
    rw [hs] at h
    simp only at h
    by_cases hm : ch = '-'
    · subst hm
      have hsp : splitSign s.data = (true, cs) := by rw [hs]; rfl
      cases cs with
      | nil => exact ⟨.numSyntax s, by simp only [atoi, hsp]⟩
      | cons d ds => exact hrun true d ds (by simpa using h) hsp
    · by_cases hp : ch = '+'
      · subst hp
        have hsp : splitSign s.data = (false, cs) := by rw [hs]; rfl
        cases cs with
        | nil => exact ⟨.numSyntax s, by simp only [atoi, hsp]⟩
        | cons d ds => exact hrun false d ds (by simpa using h) hsp
      · have hsp : splitSign s.data = (false, ch :: cs) := by
          rw [hs]; exact splitSign_other ch cs hm hp
        exact hrun false ch cs (by simpa [hm, hp] using h) hsp

/-- C2. The resolver on headers with the wrong number of segments: with
the header absent or empty, without `/`, or with a range part without `-`
it panics on the index `[1]`; with a second `/` or a second `-` it returns
a cursor and no error. -/
theorem resolveNextItem_wrong_segment_count :
    resolveNextItem 64 { Status := "200 OK", StatusCode := 200, Header := [], Body := "" } =
        .panic "index out of range [1] with length 1" ∧
      resolveNextItem 64 (pageResponse "" "") = .panic "index out of range [1] with length 1" ∧
      resolveNextItem 64 (pageResponse "0-99" "") =
        .panic "index out of range [1] with length 1" ∧
      resolveNextItem 64 (pageResponse "99/250" "") =
        .panic "index out of range [1] with length 1" ∧
      resolveNextItem 64 (pageResponse "0-9/100/5" "") =
        .ret (some ⟨100, 9, pageResponse "0-9/100/5" ""⟩) none ∧
      resolveNextItem 64 (pageResponse "1-2-3/10" "") =
        .ret (some ⟨10, 2, pageResponse "1-2-3/10" ""⟩) none := by
  decide

/-- C3, as the code has it. On a header `first-last/total` whose segments
hold no separator of their own, the resolver returns an error and no cursor
when `last` or `total` is not a decimal integer; `first` is never parsed,
so whenever `last` and `total` parse, the cursor is returned whatever
`first` is. -/
theorem resolveNextItem_non_numeric (intSize : Nat) (r : HttpResponse)
    (first last total : List Char)
    (hf : '-' ∉ first ∧ '/' ∉ first) (hl : '-' ∉ last ∧ '/' ∉ last) (ht : '/' ∉ total)
    (hdr : (r.Header.Get headerContentRange).data = first ++ '-' :: (last ++ '/' :: total)) :
    ((isDecimalInteger (String.mk last) = false ∨ isDecimalInteger (String.mk total) = false) →
        ∃ err, resolveNextItem intSize r = .ret none (some err)) ∧
      ∀ lastItem totalItems, atoi intSize (String.mk last) = .ok lastItem →
        atoi intSize (String.mk total) = .ok totalItems →
        resolveNextItem intSize r =
          .ret (some { totalItems := totalItems, lastItem := lastItem, httpResponse := r })
            none := by
  rw [resolveNextItem_shape intSize r first last total hf hl ht hdr]
  constructor
  · intro hbad
    by_cases htot : isDecimalInteger (String.mk total) = false
    · obtain ⟨err, herr⟩ := atoi_of_not_decimal intSize _ htot
      rw [herr]
      exact ⟨_, rfl⟩
    · have hlast : isDecimalInteger (String.mk last) = false := by
        rcases hbad with h | h
        · exact h
        · exact absurd h htot
      obtain ⟨err, herr⟩ := atoi_of_not_decimal intSize (String.mk last) hlast
      rw [herr]
      cases atoi intSize (String.mk total) with
      | error err => exact ⟨_, rfl⟩
      | ok t => exact ⟨_, rfl⟩
  · intro lastItem totalItems h1 h2
    rw [h2, h1]

/-- C3 at the header `0-x/100` (an error) and at `x-9/100` (a cursor). -/
theorem resolveNextItem_non_numeric_witness :
    (∃ err, resolveNextItem 64 (pageResponse "0-x/100" "") = .ret none (some err)) ∧
      resolveNextItem 64 (pageResponse "x-9/100" "") =
        .ret (some ⟨100, 9, pageResponse "x-9/100" ""⟩) none :=
  ⟨(resolveNextItem_non_numeric 64 (pageResponse "0-x/100" "") "0".data "x".data "100".data
      (by decide) (by decide) (by decide) (by decide)).1 (Or.inl (by decide)),
    (resolveNextItem_non_numeric 64 (pageResponse "x-9/100" "") "x".data "9".data "100".data
      (by decide) (by decide) (by decide) (by decide)).2 9 100 rfl rfl⟩

/-- C3 as stated fails: in the header `x-9/100` the segment `first` is not
a decimal integer, and the resolver returns a cursor without an error. -/
theorem resolveNextItem_first_not_parsed :
    isDecimalInteger "x" = false ∧
      resolveNextItem 64 (pageResponse "x-9/100" "") =
        .ret (some ⟨100, 9, pageResponse "x-9/100" ""⟩) none := by
  decide

/-! ## Headers and request building -/

theorem lookup_addCanonical (key value key1 : String) : ∀ (h : Header),
    Header.lookup (Header.addCanonical h key value) key1 =
      if key = key1 then Header.lookup h key1 ++ [value] else Header.lookup h key1
  | [] => by
    by_cases hk : key = key1 <;> simp [Header.addCanonical, Header.lookup, hk]
  | (k, vs) :: rest => by
    have ih := lookup_addCanonical key value key1 rest
    by_cases hk : k = key
    · subst hk
      by_cases hk1 : k = key1 <;> simp [Header.addCanonical, Header.lookup, hk1]
    · by_cases hk1 : k = key1
      · subst hk1
        have hne : ¬ key = k := fun e => hk e.symm
        simp [Header.addCanonical, Header.lookup, hk, hne]
      · simp [Header.addCanonical, Header.lookup, hk, hk1, ih]

theorem lookup_setCanonical (key value key1 : String) : ∀ (h : Header),
    Header.lookup (Header.setCanonical h key value) key1 =
      if key = key1 then [value] else Header.lookup h key1
  | [] => by
    by_cases hk : key = key1 <;> simp [Header.setCanonical, Header.lookup, hk]
  | (k, vs) :: rest => by
    have ih := lookup_setCanonical key value key1 rest
    by_cases hk : k = key
    · subst hk
      by_cases hk1 : k = key1 <;> simp [Header.setCanonical, Header.lookup, hk1]
    · by_cases hk1 : k = key1
      · subst hk1
        have hne : ¬ key = k := fun e => hk e.symm
        simp [Header.setCanonical, Header.lookup, hk, hne]
      · simp [Header.setCanonical, Header.lookup, hk, hk1, ih]

theorem canonical_range : canonicalMIMEHeaderKey headerRange = "Range" := by decide

theorem values_addRangeItemsHeader (r : HttpRequest) (v key : String) :
    (addRangeItemsHeader r v).Header.Values key =
      if "Range" = canonicalMIMEHeaderKey key then r.Header.Values key ++ ["items=" ++ v]
      else r.Header.Values key := by
  simp only [addRangeItemsHeader, Header.Values, Header.Add, canonical_range,
    lookup_addCanonical]

theorem values_rangeOption (o : RequestOption) (ho : IsRangeOption o) (r : HttpRequest)
    (key : String) (hkey : "Range" ≠ canonicalMIMEHeaderKey key) :
    (o r).Header.Values key = r.Header.Values key := by
  rcases ho with ⟨n, rfl⟩ | ⟨n, m, rfl⟩
  · simp only [WithRangeFrom, values_addRangeItemsHeader, if_neg hkey]
  · simp only [WithRangeFromTo, values_addRangeItemsHeader, if_neg hkey]

theorem values_applyOptions (key : String) (hkey : "Range" ≠ canonicalMIMEHeaderKey key) :
    ∀ (opts : List RequestOption) (r : HttpRequest), (∀ o ∈ opts, IsRangeOption o) →
      (applyOptions opts r).Header.Values key = r.Header.Values key
  | [], _, _ => rfl
  | o :: opts, r, h => by
    have ih := values_applyOptions key hkey opts (o r)
      (fun o1 ho1 => h o1 (List.mem_cons_of_mem _ ho1))
    have ho := values_rangeOption o (h o (List.mem_cons_self _ _)) r key hkey
    simp only [applyOptions, List.foldl_cons] at ih ⊢
    rw [ih, ho]

/-- A request that `NewRequest` returns is the options applied to a request
whose header holds the Authorization field and, for a body, the
Content-Type field. -/
theorem NewRequest_ok {β : Type} (lib : RequestLib β) (c : Client) (method url : String)
    (body : Option β) (opts : List RequestOption) (req : HttpRequest)
    (h : c.NewRequest lib method url body opts = .ok req) :
    ∃ base : HttpRequest, base.Method = (if method = "" then "GET" else method) ∧
      req = applyOptions opts { base with Header := standardHeader c body.isSome } := by
  have hbase : ∀ (u : String) (buf : Option String) (base : HttpRequest),
      httpNewRequest lib method u buf = .ok base →
        base.Header = [] ∧ base.Method = (if method = "" then "GET" else method) := by
    intro u buf base hb
    simp only [httpNewRequest] at hb
    generalize (if method = "" then "GET" else method) = m at hb ⊢
    by_cases hv : m.data.all validHeaderFieldByte = true
    · rw [if_pos hv] at hb
      cases hp : lib.parseURL u with
      | error e => rw [hp] at hb; exact absurd hb (by simp)
      | ok u1 =>
        rw [hp] at hb
        simp only [Except.ok.injEq] at hb
        rw [← hb]
        exact ⟨rfl, rfl⟩
    · rw [if_neg hv] at hb
      exact absurd hb (by simp)
  unfold Client.NewRequest at h
  cases hres : lib.resolveURL c.apiBaseURL url with
  | error err => rw [hres] at h; exact absurd h (by simp)
  | ok u =>
    rw [hres] at h
    cases body with
    | none =>
      simp only at h
      cases hnr : httpNewRequest lib method u none with
      | error err => rw [hnr] at h; exact absurd h (by simp)
      | ok base =>
        rw [hnr] at h
        simp only [Except.ok.injEq] at h
        refine ⟨base, (hbase u none base hnr).2, ?_⟩
        rw [← h, (hbase u none base hnr).1]
        rfl
    | some b =>
      simp only at h
      cases henc : lib.jsonEncode b with
      | error err => rw [henc] at h; exact absurd h (by simp)
      | ok text =>
        rw [henc] at h
        simp only at h
        cases hnr : httpNewRequest lib method u (some text) with
        | error err => rw [hnr] at h; exact absurd h (by simp)
        | ok base =>
          rw [hnr] at h
          simp only [Except.ok.injEq] at h
          refine ⟨base, (hbase u (some text) base hnr).2, ?_⟩
          rw [← h, (hbase u (some text) base hnr).1]
          rfl

theorem values_standardHeader_authorization (c : Client) (hasBody : Bool) :
    (standardHeader c hasBody).Values "Authorization" =
      ["Basic " ++ base64StdEncodeToString (c.apiKey ++ ":" ++ c.apiSecret)] := by
  have h1 : canonicalMIMEHeaderKey "Authorization" = "Authorization" := by decide
  have h2 : canonicalMIMEHeaderKey headerContentType = "Content-Type" := by decide
  have h3 : ¬ ("Content-Type" = "Authorization") := by decide
  cases hasBody <;>
    simp [standardHeader, Header.Values, Header.Add, Header.Set, lookup_addCanonical,
      lookup_setCanonical, h1, h2, h3, Header.lookup]

theorem values_standardHeader_contentType (c : Client) (hasBody : Bool) :
    (standardHeader c hasBody).Values headerContentType =
      if hasBody then [contentTypeJSON] else [] := by
  have h1 : canonicalMIMEHeaderKey "Authorization" = "Authorization" := by decide
  have h2 : canonicalMIMEHeaderKey headerContentType = "Content-Type" := by decide
  have h3 : ¬ ("Authorization" = "Content-Type") := by decide
  cases hasBody <;>
    simp [standardHeader, Header.Values, Header.Add, Header.Set, lookup_addCanonical,
      lookup_setCanonical, h1, h2, h3, Header.lookup]

/-- C7. Every request that `NewRequest` builds, with or without a body and
with any range options, carries exactly one Authorization value: `Basic `
followed by the standard base64 text of `key:secret`. -/
theorem NewRequest_authorization {β : Type} (lib : RequestLib β) (c : Client)
    (method url : String) (body : Option β) (opts : List RequestOption) (req : HttpRequest)
    (hopts : ∀ o ∈ opts, IsRangeOption o)
    (h : c.NewRequest lib method url body opts = .ok req) :
    req.Header.Values "Authorization" =
      ["Basic " ++ base64StdEncodeToString (c.apiKey ++ ":" ++ c.apiSecret)] := by
  obtain ⟨base, -, rfl⟩ := NewRequest_ok lib c method url body opts req h
  rw [values_applyOptions "Authorization" (by decide) opts _ hopts]
  exact values_standardHeader_authorization c body.isSome

/-- C7 for a bodiless `GET` with the option `WithRangeFrom 99`. -/
theorem NewRequest_authorization_witness :
    (applyOptions [WithRangeFrom 99]
        { Method := "GET", URL := "https://api.mrpeasy.com/rest/v1/customers",
          Header := standardHeader exampleClient false, Body := none }).Header.Values
      "Authorization" = ["Basic " ++ base64StdEncodeToString ("key" ++ ":" ++ "secret")] :=
  NewRequest_authorization exampleRequestLib exampleClient "GET" "customers" none
    [WithRangeFrom 99] _ (fun _ ho => Or.inl ⟨99, List.mem_singleton.mp ho⟩) rfl

/-- C8. A request that `NewRequest` builds, with any range options, carries
a Content-Type value exactly when the body is not nil, and the value is
then `application/json`. -/
theorem NewRequest_contentType {β : Type} (lib : RequestLib β) (c : Client)
    (method url : String) (body : Option β) (opts : List RequestOption) (req : HttpRequest)
    (hopts : ∀ o ∈ opts, IsRangeOption o)
    (h : c.NewRequest lib method url body opts = .ok req) :
    req.Header.Values headerContentType = if body.isSome then [contentTypeJSON] else [] := by
  obtain ⟨base, -, rfl⟩ := NewRequest_ok lib c method url body opts req h
  rw [values_applyOptions headerContentType (by decide) opts _ hopts]
  exact values_standardHeader_contentType c body.isSome

/-- C8 for a `POST` with a body and the option `WithRangeFromTo 10 14`. -/
theorem NewRequest_contentType_witness :
    (applyOptions [WithRangeFromTo 10 14]
        { Method := "POST", URL := "https://api.mrpeasy.com/rest/v1/customers",
          Header := standardHeader exampleClient true,
          Body := some "null\n" }).Header.Values headerContentType =
      if (some ()).isSome then [contentTypeJSON] else [] :=
  NewRequest_contentType exampleRequestLib exampleClient "POST" "customers" (some ())
    [WithRangeFromTo 10 14] _ (fun _ ho => Or.inr ⟨10, 14, List.mem_singleton.mp ho⟩) rfl

/-! ## The executor -/

theorem isError_of_2xx (resp : HttpResponse)
    (h : 200 ≤ resp.StatusCode ∧ resp.StatusCode ≤ 299) : isError resp = none := by
  simp [isError, h]

/-- C6. When the status code of the response is outside `[200, 299]`, `Do`
returns the error `response: <status line>` with an envelope that wraps the
response and has a zero cursor, whatever the headers and the body are, and
leaves the decode target as it was; when the status code is inside, `isError`
gives no error. -/
theorem Do_status_outside_2xx {W τ : Type} (intSize : Nat) (lib : BodyLib W τ)
    (client : HttpRequest → RoundTrip) (req : HttpRequest) (resp : HttpResponse)
    (v : Target W τ) (hcl : client req = .response resp) :
    ((resp.StatusCode < 200 ∨ 299 < resp.StatusCode) →
        Client.Do intSize lib client req v =
          (.ret (some { totalItems := 0, lastItem := 0, httpResponse := resp })
            (some (.errorf ("response: " ++ resp.Status))), v)) ∧
      ((200 ≤ resp.StatusCode ∧ resp.StatusCode ≤ 299) → isError resp = none) := by
  constructor
  · intro h
    have hne : ¬ (200 ≤ resp.StatusCode ∧ resp.StatusCode ≤ 299) := by omega
    simp only [Client.Do, hcl, isError, if_neg hne]
  · exact isError_of_2xx resp

/-- C6 at a `404 Not Found` response without a range header and with a
body, for a JSON decode target. -/
theorem Do_status_outside_2xx_witness :
    Client.Do 64 exampleBodyLib (fun _ => .response notFoundResponse)
        exampleRequest (.value ['z']) =
      (.ret (some { totalItems := 0, lastItem := 0, httpResponse := notFoundResponse })
        (some (.errorf ("response: " ++ notFoundResponse.Status))), .value ['z']) :=
  (Do_status_outside_2xx 64 exampleBodyLib (fun _ => .response notFoundResponse)
    exampleRequest notFoundResponse (.value ['z']) rfl).1 (Or.inr (by decide))

/-- C9. For a response with a status in `[200, 299]`, a range header that
resolves to a cursor and an empty body, `Do` with a JSON decode target
returns the envelope and no error and leaves the target as it was; a decode
error other than `io.EOF` is returned as the error of `Do`. -/
theorem Do_empty_body {W τ : Type} (intSize : Nat) (lib : BodyLib W τ)
    (client : HttpRequest → RoundTrip) (req : HttpRequest) (resp : HttpResponse)
    (cursor : Response) (x : τ) (hcl : client req = .response resp)
    (hst : 200 ≤ resp.StatusCode ∧ resp.StatusCode ≤ 299)
    (hres : resolveNextItem intSize resp = .ret (some cursor) none) :
    (resp.Body = "" →
        Client.Do intSize lib client req (.value x) = (.ret (some cursor) none, .value x)) ∧
      ∀ x1 err, jsonDecode lib resp.Body x = (x1, some err) → err ≠ .eof →
        Client.Do intSize lib client req (.value x) =
          (.ret (some cursor) (some err), .value x1) := by
  constructor
  · intro hbody
    simp [Client.Do, hcl, isError_of_2xx resp hst, hres, jsonDecode, hbody]
  · intro x1 err hdec hne
    simp [Client.Do, hcl, isError_of_2xx resp hst, hres, hdec, hne]

/-- C9 at a `200 OK` response with the header `0-99/250`: with an empty
body there is no error, with the body `[1,` the decoder error is returned. -/
theorem Do_empty_body_witness :
    Client.Do 64 exampleBodyLib (fun _ => .response (pageResponse "0-99/250" ""))
        exampleRequest (.value ['z']) =
        (.ret (some ⟨250, 99, pageResponse "0-99/250" ""⟩) none, .value ['z']) ∧
      Client.Do 64 failingBodyLib (fun _ => .response (pageResponse "0-99/250" "[1,"))
        exampleRequest (.value ['z']) =
        (.ret (some ⟨250, 99, pageResponse "0-99/250" "[1,"⟩)
          (some (.other "invalid character")), .value ['z']) :=
  ⟨(Do_empty_body 64 exampleBodyLib (fun _ => .response (pageResponse "0-99/250" ""))
      exampleRequest (pageResponse "0-99/250" "") ⟨250, 99, pageResponse "0-99/250" ""⟩ ['z']
      rfl (by decide) (by decide)).1 rfl,
    (Do_empty_body 64 failingBodyLib (fun _ => .response (pageResponse "0-99/250" "[1,"))
      exampleRequest (pageResponse "0-99/250" "[1,") ⟨250, 99, pageResponse "0-99/250" "[1,"⟩ ['z']
      rfl (by decide) (by decide)).2 ['z'] (.other "invalid character") rfl (by decide)⟩

/-! ## The listing loop -/

theorem NewRequest_options {β : Type} (lib : RequestLib β) (c : Client) (method url : String)
    (body : Option β) (opts : List RequestOption) (req0 : HttpRequest)
    (h : c.NewRequest lib method url body [] = .ok req0) :
    c.NewRequest lib method url body opts = .ok (applyOptions opts req0) := by
  unfold Client.NewRequest at h ⊢
  cases hres : lib.resolveURL c.apiBaseURL url with
  | error err => rw [hres] at h; exact absurd h (by simp)
  | ok u =>
    rw [hres] at h
    cases body with
    | none =>
      simp only at h ⊢
      cases hnr : httpNewRequest lib method u none with
      | error err => rw [hnr] at h; exact absurd h (by simp)
      | ok base =>
        rw [hnr] at h
        simp only [Except.ok.injEq, List.foldl_nil] at h
        simp only [← h, applyOptions]
    | some b =>
      simp only at h ⊢
      cases henc : lib.jsonEncode b with
      | error err => rw [henc] at h; exact absurd h (by simp)
      | ok text =>
        rw [henc] at h
        simp only at h ⊢
        cases hnr : httpNewRequest lib method u (some text) with
        | error err => rw [hnr] at h; exact absurd h (by simp)
        | ok base =>
          rw [hnr] at h
          simp only [Except.ok.injEq, List.foldl_nil] at h
          simp only [← h, applyOptions]

theorem Do_good_page {W α : Type} (intSize : Nat) (blib : BodyLib W (List α)) (p : Page α)
    (hp : p.Good intSize blib) (req : HttpRequest) :
    Client.Do intSize blib (fun _ => .response p.resp) req (.value []) =
      (.ret (some p.cursor) none, .value p.items) := by
  obtain ⟨h1, h2, h3⟩ := hp
  rcases h3 with h3 | h3 <;> simp [Client.Do, h1, h2, h3]

/-- One turn of the loop on a good page that has a next page. -/
theorem listLoop_next {β W α : Type} (intSize : Nat) (rlib : RequestLib β)
    (blib : BodyLib W (List α)) (c : Client) (path : String) (req0 : HttpRequest)
    (hreq : c.NewRequest rlib "GET" path none [] = .ok req0) (p : Page α)
    (hp : p.Good intSize blib) (hnext : p.cursor.HasNext intSize = true)
    (script : List RoundTrip) (opts : List RequestOption) (result : List α)
    (sent : List HttpRequest) :
    listLoop intSize rlib blib c path (.response p.resp :: script) opts result sent =
      listLoop intSize rlib blib c path script [WithRangeFrom p.cursor.Next]
        (result ++ p.items) (sent ++ [applyOptions opts req0]) := by
  rw [listLoop]
  simp only [NewRequest_options rlib c "GET" path none opts req0 hreq,
    Do_good_page intSize blib p hp, hnext]
  rfl

/-- The last turn of the loop, on a good page without a next page. -/
theorem listLoop_last {β W α : Type} (intSize : Nat) (rlib : RequestLib β)
    (blib : BodyLib W (List α)) (c : Client) (path : String) (req0 : HttpRequest)
    (hreq : c.NewRequest rlib "GET" path none [] = .ok req0) (p : Page α)
    (hp : p.Good intSize blib) (hnext : p.cursor.HasNext intSize = false)
    (script : List RoundTrip) (opts : List RequestOption) (result : List α)
    (sent : List HttpRequest) :
    listLoop intSize rlib blib c path (.response p.resp :: script) opts result sent =
      { outcome := some (.ret (some (result ++ p.items)) none),
        requests := sent ++ [applyOptions opts req0], rest := script } := by
  rw [listLoop]
  simp only [NewRequest_options rlib c "GET" path none opts req0 hreq,
    Do_good_page intSize blib p hp, hnext]
  rfl

/-- The loop over a run of good pages that all have a next page. -/
theorem listLoop_pages {β W α : Type} (intSize : Nat) (rlib : RequestLib β)
    (blib : BodyLib W (List α)) (c : Client) (path : String) (req0 : HttpRequest)
    (hreq : c.NewRequest rlib "GET" path none [] = .ok req0) :
    ∀ (pages : List (Page α)) (script : List RoundTrip) (opts : List RequestOption)
      (result : List α) (sent : List HttpRequest),
      (∀ p ∈ pages, p.Good intSize blib ∧ p.cursor.HasNext intSize = true) →
      listLoop intSize rlib blib c path
          (pages.map (fun p => RoundTrip.response p.resp) ++ script) opts result sent =
        listLoop intSize rlib blib c path script (optionsAfter opts pages)
          (result ++ pages.flatMap (fun p => p.items)) (sent ++ pageRequests req0 opts pages)
  | [], script, opts, result, sent, _ => by
    simp [optionsAfter, pageRequests]
  | p :: ps, script, opts, result, sent, h => by
    have hp := h p (List.mem_cons_self _ _)
    have ih := listLoop_pages intSize rlib blib c path req0 hreq ps script
      [WithRangeFrom p.cursor.Next] (result ++ p.items) (sent ++ [applyOptions opts req0])
      (fun q hq => h q (List.mem_cons_of_mem _ hq))
    rw [List.map_cons, List.cons_append,
      listLoop_next intSize rlib blib c path req0 hreq p hp.1 hp.2, ih]
    simp [optionsAfter, pageRequests]

theorem length_pageRequests {α : Type} (req0 : HttpRequest) : ∀ (ps : List (Page α))
    (opts : List RequestOption), (pageRequests req0 opts ps).length = ps.length
  | [], _ => rfl
  | p :: ps, opts => by
    simp [pageRequests, length_pageRequests req0 ps]

theorem method_addRangeItemsHeader (r : HttpRequest) (v : String) :
    (addRangeItemsHeader r v).Method = r.Method := rfl

theorem method_pageRequests {α : Type} (req0 : HttpRequest) : ∀ (ps : List (Page α))
    (opts : List RequestOption), (applyOptions opts req0).Method = req0.Method →
    ∀ q ∈ pageRequests req0 opts ps, q.Method = req0.Method
  | [], _, _ => by simp [pageRequests]
  | p :: ps, opts, h => by
    intro q hq
    simp only [pageRequests, List.mem_cons] at hq
    rcases hq with hq | hq
    · rw [hq]; exact h
    · exact method_pageRequests req0 ps [WithRangeFrom p.cursor.Next] rfl q hq

theorem range_pageRequests {α : Type} (req0 : HttpRequest)
    (h0 : req0.Header.Values headerRange = []) (last : Page α) :
    ∀ (ps : List (Page α)) (opts : List RequestOption),
      (pageRequests req0 opts (ps ++ [last])).map (fun q => q.Header.Values headerRange) =
        (applyOptions opts req0).Header.Values headerRange ::
          ps.map (fun p => ["items=" ++ toString p.cursor.lastItem])
  | [], opts => by simp [pageRequests]
  | p :: ps, opts => by
    have ih := range_pageRequests req0 h0 last ps [WithRangeFrom p.cursor.Next]
    have hv : (applyOptions [WithRangeFrom p.cursor.Next] req0).Header.Values headerRange =
        ["items=" ++ toString p.cursor.lastItem] := by
      simp only [applyOptions, List.foldl_cons, List.foldl_nil, WithRangeFrom,
        values_addRangeItemsHeader, canonical_range, if_true, h0, Response.Next, List.nil_append]
    show (applyOptions opts req0).Header.Values headerRange ::
      (pageRequests req0 [WithRangeFrom p.cursor.Next] (ps ++ [last])).map
        (fun q => q.Header.Values headerRange) = _
    rw [ih, hv]
    rfl

theorem range_standardHeader (c : Client) :
    (standardHeader c false).Values headerRange = [] := by
  have h1 : canonicalMIMEHeaderKey "Authorization" = "Authorization" := by decide
  have h3 : ¬ ("Authorization" = "Range") := by decide
  simp [standardHeader, Header.Values, Header.Add, lookup_addCanonical, canonical_range, h1, h3,
    Header.lookup]

/-- The loop at any path, from its start state, over good pages of which
the last is the first without a next page. -/
theorem listLoop_good_pages {β W α : Type} (intSize : Nat) (rlib : RequestLib β)
    (blib : BodyLib W (List α)) (c : Client) (path : String) (req0 : HttpRequest)
    (pages : List (Page α)) (last : Page α) (rest : List RoundTrip)
    (hreq : c.NewRequest rlib "GET" path none [] = .ok req0)
    (hgood : ∀ p ∈ pages ++ [last], p.Good intSize blib)
    (hmore : ∀ p ∈ pages, p.cursor.HasNext intSize = true)
    (hlast : last.cursor.HasNext intSize = false) :
    let run := listLoop intSize rlib blib c path
      ((pages ++ [last]).map (fun p => RoundTrip.response p.resp) ++ rest) [] [] []
    run.outcome = some (.ret (some ((pages ++ [last]).flatMap (fun p => p.items))) none) ∧
      run.requests.map (fun q => q.Header.Values headerRange) =
        [] :: pages.map (fun p => ["items=" ++ toString p.cursor.lastItem]) ∧
      (∀ q ∈ run.requests, q.Method = "GET") ∧
      run.rest = rest := by
  intro run
  obtain ⟨base, hmeth, hbase⟩ := NewRequest_ok rlib c "GET" path none [] req0 hreq
  have h0 : req0.Header.Values headerRange = [] := by
    rw [hbase]
    exact range_standardHeader c
  have hm0 : req0.Method = "GET" := by
    rw [hbase]
    exact hmeth
  have hrun : run = ListRun.mk
      (some (.ret (some ((pages ++ [last]).flatMap (fun p => p.items))) none))
      (pageRequests req0 [] (pages ++ [last])) rest := by
    show listLoop intSize rlib blib c path _ [] [] [] = _
    rw [List.map_append, List.append_assoc,
      listLoop_pages intSize rlib blib c path req0 hreq pages _ [] [] []
        (fun p hp => ⟨hgood p (List.mem_append_left _ hp), hmore p hp⟩),
      List.map_singleton, List.singleton_append,
      listLoop_last intSize rlib blib c path req0 hreq last
        (hgood last (List.mem_append_right _ (List.mem_singleton_self _))) hlast]
    have hreqs : ∀ (ps : List (Page α)) (opts : List RequestOption),
        pageRequests req0 opts ps ++ [applyOptions (optionsAfter opts ps) req0] =
          pageRequests req0 opts (ps ++ [last]) := by
      intro ps
      induction ps with
      | nil => intro opts; rfl
      | cons p ps ih => intro opts; simp [pageRequests, optionsAfter, ih]
    simp [hreqs]
  rw [hrun]
  refine ⟨rfl, ?_, ?_, rfl⟩
  · show (pageRequests req0 [] (pages ++ [last])).map _ = _
    rw [range_pageRequests req0 h0 last pages []]
    simp [applyOptions, h0]
  · intro q hq
    rw [← hm0]
    exact method_pageRequests req0 _ [] rfl q hq

/-- C4. For each of the four listing calls (`ListCustomers`,
`ListCustomerOrders`, `ListShipments`, `ListStockItems`) and good pages
`p1..pn` of which the last is the first without a next page, the call sends
exactly `n` requests, all `GET`, the first without a Range header and each
later one with the single Range value `items=<lastItem of the page before>`,
and returns without error the items of the pages in page order; what the
transport holds after `pn` is not touched. -/
theorem List_pages {β W α : Type} (intSize : Nat) (rlib : RequestLib β)
    (blib : BodyLib W (List α)) (c : Client) (e : Endpoint) (req0 : HttpRequest)
    (pages : List (Page α)) (last : Page α) (rest : List RoundTrip)
    (hreq : c.NewRequest rlib "GET" e.path none [] = .ok req0)
    (hgood : ∀ p ∈ pages ++ [last], p.Good intSize blib)
    (hmore : ∀ p ∈ pages, p.cursor.HasNext intSize = true)
    (hlast : last.cursor.HasNext intSize = false) :
    let run := e.list intSize rlib blib c
      ((pages ++ [last]).map (fun p => RoundTrip.response p.resp) ++ rest)
    run.outcome = some (.ret (some ((pages ++ [last]).flatMap (fun p => p.items))) none) ∧
      run.requests.map (fun q => q.Header.Values headerRange) =
        [] :: pages.map (fun p => ["items=" ++ toString p.cursor.lastItem]) ∧
      (∀ q ∈ run.requests, q.Method = "GET") ∧
      run.rest = rest := by
  cases e
  · exact listLoop_good_pages intSize rlib blib c "customers" req0 pages last rest hreq
      hgood hmore hlast
  · exact listLoop_good_pages intSize rlib blib c "customer-orders" req0 pages last rest hreq
      hgood hmore hlast
  · exact listLoop_good_pages intSize rlib blib c "shipments" req0 pages last rest hreq
      hgood hmore hlast
  · exact listLoop_good_pages intSize rlib blib c "items" req0 pages last rest hreq
      hgood hmore hlast

/-- C4 for `ListCustomers` at the pages with the headers `0-99/250`,
`99-199/250` and `199-249/250`: three requests, the second with `items=99`,
the third with `items=199`, and the items of the three pages in order; and
for `ListShipments` at the pages `0-0/2` and `0-1/2`. -/
theorem List_pages_witness :
    (exampleCustomersRun.outcome = some (.ret (some ['a', 'b', 'c', 'd', 'e']) none) ∧
        exampleCustomersRun.requests.map (fun q => q.Header.Values headerRange) =
          [[], ["items=99"], ["items=199"]] ∧
        (∀ q ∈ exampleCustomersRun.requests, q.Method = "GET") ∧
        exampleCustomersRun.rest = []) ∧
      (exampleShipmentsRun.outcome = some (.ret (some ['x', 'y']) none) ∧
        exampleShipmentsRun.requests.map (fun q => q.Header.Values headerRange) =
          [[], ["items=0"]] ∧
        (∀ q ∈ exampleShipmentsRun.requests, q.Method = "GET") ∧
        exampleShipmentsRun.rest = [RoundTrip.response notFoundResponse]) :=
  ⟨List_pages 64 exampleRequestLib exampleBodyLib exampleClient Endpoint.customers
      exampleRequest
      [examplePage "0-99/250" "ab" 250 99, examplePage "99-199/250" "cd" 250 199]
      (examplePage "199-249/250" "e" 250 249) [] rfl
      (fun p hp => by
        simp only [List.cons_append, List.nil_append, List.mem_cons, List.mem_singleton,
          List.not_mem_nil, or_false] at hp
        rcases hp with rfl | rfl | rfl <;> exact ⟨by decide, by decide, Or.inl (by decide)⟩)
      (fun p hp => by
        simp only [List.mem_cons, List.mem_singleton, List.not_mem_nil, or_false] at hp
        rcases hp with rfl | rfl <;> decide)
      (by decide),
    List_pages 64 exampleRequestLib exampleBodyLib exampleClient Endpoint.shipments
      { exampleRequest with URL := "https://api.mrpeasy.com/rest/v1/shipments" }
      [examplePage "0-0/2" "x" 2 0] (examplePage "0-1/2" "y" 2 1)
      [RoundTrip.response notFoundResponse] rfl
      (fun p hp => by
        simp only [List.cons_append, List.nil_append, List.mem_cons, List.mem_singleton,
          List.not_mem_nil, or_false] at hp
        rcases hp with rfl | rfl <;> exact ⟨by decide, by decide, Or.inl (by decide)⟩)
      (fun p hp => by
        simp only [List.mem_singleton] at hp
        subst hp
        decide)
      (by decide)⟩

/-! ## Errors in a listing -/

/-- C5. A listing call whose request cannot be built returns that error
and nil and sends nothing; a listing call that, after any number of good
pages with a next page, gets an error from `Do` returns that error and nil,
not the items of the pages before, and sends no request after the failing
one.  The four endpoints are `listLoop` at their paths. -/
theorem listLoop_error {β W α : Type} (intSize : Nat) (rlib : RequestLib β)
    (blib : BodyLib W (List α)) (c : Client) (path : String) :
    (∀ (err : GoError) (script : List RoundTrip),
        c.NewRequest rlib "GET" path none [] = .error err →
        listLoop intSize rlib blib c path script [] [] [] =
          ListRun.mk (some (.ret none (some err))) [] script) ∧
      ∀ (req0 : HttpRequest) (pages : List (Page α)) (bad : RoundTrip)
        (v : Option Response) (err : GoError) (rest : List RoundTrip),
        c.NewRequest rlib "GET" path none [] = .ok req0 →
        (∀ p ∈ pages, p.Good intSize blib ∧ p.cursor.HasNext intSize = true) →
        (∀ req, (Client.Do intSize blib (fun _ => bad) req (.value ([] : List α))).1 =
          .ret v (some err)) →
        (listLoop intSize rlib blib c path
            (pages.map (fun p => RoundTrip.response p.resp) ++ bad :: rest)
            [] [] []).outcome = some (.ret none (some err)) ∧
          (listLoop intSize rlib blib c path
            (pages.map (fun p => RoundTrip.response p.resp) ++ bad :: rest)
            [] [] []).requests.length = pages.length + 1 ∧
          (listLoop intSize rlib blib c path
            (pages.map (fun p => RoundTrip.response p.resp) ++ bad :: rest)
            [] [] []).rest = rest := by
  constructor
  · intro err script h
    rw [listLoop]
    simp only [h]
  · intro req0 pages bad v err rest hreq hpages hbad
    rw [listLoop_pages intSize rlib blib c path req0 hreq pages _ [] [] [] hpages, listLoop]
    simp only [NewRequest_options rlib c "GET" path none _ req0 hreq]
    have hdo := hbad (applyOptions (optionsAfter [] pages) req0)
    cases hres : Client.Do intSize blib (fun _ => bad)
        (applyOptions (optionsAfter [] pages) req0) (.value ([] : List α)) with
    | mk o t =>
      rw [hres] at hdo
      simp only at hdo
      subst hdo
      simp [length_pageRequests]

/-- C5 for `ListStockItems`: with a URL that cannot be resolved nothing is
sent; with a good first page and a `500` answer to the second request, the
error of the second request comes back with nil, two requests were sent and
the third answer is not consumed. -/
theorem listLoop_error_witness :
    Client.ListStockItems 64 failingRequestLib exampleBodyLib exampleClient
        [RoundTrip.response (pageResponse "0-99/250" "ab")] =
        ListRun.mk (some (.ret none (some (.other "parse: invalid URL")))) []
          [RoundTrip.response (pageResponse "0-99/250" "ab")] ∧
      ((Client.ListStockItems 64 exampleRequestLib exampleBodyLib exampleClient
          [RoundTrip.response (pageResponse "0-99/250" "ab"),
            RoundTrip.response serverErrorResponse,
            RoundTrip.response (pageResponse "99-199/250" "cd")]).outcome =
          some (.ret none (some (.errorf "response: 500 Internal Server Error"))) ∧
        (Client.ListStockItems 64 exampleRequestLib exampleBodyLib exampleClient
          [RoundTrip.response (pageResponse "0-99/250" "ab"),
            RoundTrip.response serverErrorResponse,
            RoundTrip.response (pageResponse "99-199/250" "cd")]).requests.length = 2 ∧
        (Client.ListStockItems 64 exampleRequestLib exampleBodyLib exampleClient
          [RoundTrip.response (pageResponse "0-99/250" "ab"),
            RoundTrip.response serverErrorResponse,
            RoundTrip.response (pageResponse "99-199/250" "cd")]).rest =
          [RoundTrip.response (pageResponse "99-199/250" "cd")]) :=
  ⟨(listLoop_error 64 failingRequestLib exampleBodyLib exampleClient "items").1
      (.other "parse: invalid URL") [RoundTrip.response (pageResponse "0-99/250" "ab")] rfl,
    (listLoop_error 64 exampleRequestLib exampleBodyLib exampleClient "items").2
      { exampleRequest with URL := "https://api.mrpeasy.com/rest/v1/items" }
      [examplePage "0-99/250" "ab" 250 99] (RoundTrip.response serverErrorResponse)
      (some ⟨0, 0, serverErrorResponse⟩) (.errorf "response: 500 Internal Server Error")
      [RoundTrip.response (pageResponse "99-199/250" "cd")] rfl
      (fun p hp => by
        simp only [List.mem_singleton] at hp
        subst hp
        exact ⟨⟨by decide, by decide, Or.inl (by decide)⟩, by decide⟩)
      (fun _ => rfl)⟩

/-! ## Timestamps -/

theorem scanString_plain_cons (c : Char) (rest : List Char) (h : IsPlainChar c) :
    scanString (c :: rest) = (scanString rest).map (StringPiece.char c :: ·) := by
  obtain ⟨h1, h2, h3⟩ := h
  rw [scanString]
  · simp [h3]
    omega
  · intro heq
    exact h2 heq
  · intros
    exact h3 (by assumption)
  · intros
    exact h3 (by assumption)

theorem scanString_plain : ∀ (ds : List Char), (∀ c ∈ ds, IsPlainChar c) →
    scanString (ds ++ ['"']) = some (ds.map StringPiece.char)
  | [], _ => by simp [scanString]
  | d :: ds, h => by
    rw [List.cons_append, scanString_plain_cons d _ (h d (List.mem_cons_self _ _)),
      scanString_plain ds (fun c hc => h c (List.mem_cons_of_mem _ hc))]
    rfl

theorem unquotePieces_chars : ∀ (ds : List Char),
    unquotePieces none (ds.map StringPiece.char) = ds
  | [] => rfl
  | d :: ds => by
    simp [unquotePieces, unquotePieces_chars ds]

theorem jsonTrim_quoted (mid : List Char) :
    jsonTrim ('"' :: (mid ++ ['"'])) = '"' :: (mid ++ ['"']) := by
  have h1 : isJsonSpace '"' = false := by decide
  simp [jsonTrim, List.dropWhile, h1]

/-- A quoted run of plain characters is a JSON string with these
characters as value, and it is not `null`. -/
theorem jsonUnmarshalString_quoted (ds : List Char) (h : ∀ c ∈ ds, IsPlainChar c)
    (raw : String) :
    jsonUnmarshalString (String.mk ('"' :: (ds ++ ['"']))) raw = .ok (String.mk ds) := by
  have hnull : ¬ ('"' :: (ds ++ ['"']) = "null".data) := by
    intro heq
    have := (List.cons.inj heq).1
    exact absurd this (by decide)
  simp [jsonUnmarshalString, jsonStringValue, jsonTrim_quoted, hnull, scanString_plain ds h,
    unquotePieces_chars]

theorem IsNumeral.plain {ds : List Char} {n : Nat} (h : IsNumeral ds n) :
    ∀ c ∈ ds, IsPlainChar c := by
  intro c hc
  have hd := h.2.1 c hc
  refine ⟨by omega, ?_, ?_⟩
  · intro e; rw [e] at hd; exact absurd hd (by decide)
  · intro e; rw [e] at hd; exact absurd hd (by decide)

theorem quoted_eq (t : String) :
    "\"" ++ t ++ "\"" = String.mk ('"' :: (t.data ++ ['"'])) := by
  apply String.ext
  simp

/-- The decimal text of an `int` value is read back by `Atoi`, and its
characters are plain. -/
theorem atoi_toString (intSize : Nat) (n : Int) (hlo : -(2 : Int) ^ (intSize - 1) ≤ n)
    (hhi : n < 2 ^ (intSize - 1)) :
    atoi intSize (String.mk (toString n).data) = .ok n ∧
      ∀ c ∈ (toString n).data, IsPlainChar c := by
  cases n with
  | ofNat m =>
    have hnum := toDigits_numeral m
    have hm : m < 2 ^ (intSize - 1) := by
      have : ((m : Nat) : Int) < ((2 ^ (intSize - 1) : Nat) : Int) := by
        simpa using hhi
      exact_mod_cast this
    exact ⟨atoi_numeral intSize _ m hnum hm, hnum.plain⟩
  | negSucc m =>
    have hnum := toDigits_numeral (m + 1)
    have hm : m + 1 ≤ 2 ^ (intSize - 1) := by
      have : ((m + 1 : Nat) : Int) ≤ ((2 ^ (intSize - 1) : Nat) : Int) := by
        have h1 : Int.negSucc m = -((m + 1 : Nat) : Int) := rfl
        rw [h1] at hlo
        push_cast at hlo ⊢
        omega
      exact_mod_cast this
    have hdata : (toString (Int.negSucc m)).data = '-' :: Nat.toDigits 10 (m + 1) := rfl
    rw [hdata]
    refine ⟨atoi_neg_numeral intSize _ (m + 1) hnum hm, ?_⟩
    intro c hc
    rcases List.mem_cons.mp hc with rfl | hc
    · exact ⟨by decide, by decide, by decide⟩
    · exact hnum.plain c hc

/-- C10. `UnmarshalJSON` on the JSON string that holds the decimal text of
an `int` value `n` sets the timestamp to `n` seconds after the Unix epoch,
zero nanoseconds, and returns no error; on a text that is not a JSON string,
and on a JSON string whose value is not a decimal integer, it returns an
error and leaves the timestamp as it was. -/
theorem UnmarshalJSON_decimal (intSize : Nat) (p : Timestamp) :
    (∀ n : Int, -(2 : Int) ^ (intSize - 1) ≤ n → n < 2 ^ (intSize - 1) →
        Timestamp.UnmarshalJSON intSize p ("\"" ++ toString n ++ "\"") =
          ({ Time := { sec := n, nsec := 0 } }, none)) ∧
      ∀ bytes : String,
        (jsonStringValue bytes = none ∨
          ∃ raw, jsonStringValue bytes = some raw ∧ isDecimalInteger raw = false) →
        ∃ err, Timestamp.UnmarshalJSON intSize p bytes = (p, some err) := by
  constructor
  · intro n hlo hhi
    obtain ⟨hatoi, hplain⟩ := atoi_toString intSize n hlo hhi
    rw [quoted_eq]
    simp only [Timestamp.UnmarshalJSON, jsonUnmarshalString_quoted _ hplain, hatoi]
    rfl
  · intro bytes h
    have hempty : atoi intSize "" = .error (.numSyntax "") := rfl
    unfold Timestamp.UnmarshalJSON jsonUnmarshalString
    by_cases hnull : jsonTrim bytes.data = "null".data
    · rw [if_pos hnull]
      simp only [hempty]
      exact ⟨_, rfl⟩
    · rw [if_neg hnull]
      rcases h with h | ⟨raw, h, hraw⟩
      · rw [h]
        exact ⟨_, rfl⟩
      · rw [h]
        obtain ⟨err, herr⟩ := atoi_of_not_decimal intSize raw hraw
        simp only [herr]
        exact ⟨_, rfl⟩

/-- C10 on a 64-bit platform: the string `"1700000000"` sets the time, the
bare number `17` and the empty string `""` are errors. -/
theorem UnmarshalJSON_decimal_witness :
    Timestamp.UnmarshalJSON 64 ⟨⟨7, 7⟩⟩ ("\"" ++ toString (1700000000 : Int) ++ "\"") =
        ({ Time := { sec := 1700000000, nsec := 0 } }, none) ∧
      (∃ err, Timestamp.UnmarshalJSON 64 ⟨⟨7, 7⟩⟩ "17" = (⟨⟨7, 7⟩⟩, some err)) ∧
      ∃ err, Timestamp.UnmarshalJSON 64 ⟨⟨7, 7⟩⟩ "\"\"" = (⟨⟨7, 7⟩⟩, some err) :=
  ⟨(UnmarshalJSON_decimal 64 ⟨⟨7, 7⟩⟩).1 1700000000 (by decide) (by decide),
    (UnmarshalJSON_decimal 64 ⟨⟨7, 7⟩⟩).2 "17" (Or.inl (by decide)),
    (UnmarshalJSON_decimal 64 ⟨⟨7, 7⟩⟩).2 "\"\"" (Or.inr ⟨"", by decide, by decide⟩)⟩

end Mrpeasy
